import Mathlib

/-!
Verification of the DocuSenseAI-v2 retrieval pipeline (src/processor.py and
src/app.py) against its specification.

Python strings are modelled as lists of characters (`Str`).  External
capabilities (pandas, the langchain document loaders, the FAISS index and the
ollama chat endpoint) are parameters of the embedded functions; everything the
repository's own code does to their outputs is translated faithfully from the
source.
-/

namespace DocuSense

/-- Python strings are modelled as lists of characters. -/
abbrev Str := List Char

/-- Convert a Lean string literal into the `Str` model. -/
def strL (s : String) : Str := s.data

/-- Python `sep.join(parts)`. -/
def pyJoin (sep : Str) : List Str → Str
  | [] => []
  | [x] => x
  | x :: y :: r => x ++ sep ++ pyJoin sep (y :: r)

/-- The characters Python `str.strip()` removes. -/
def pyIsSpace (c : Char) : Bool :=
  c == ' ' || c == '\t' || c == '\n' || c == '\r' || c == '\x0b' || c == '\x0c'

/-- Python `str.strip()`: drop whitespace from both ends. -/
def pyStrip (s : Str) : Str :=
  ((s.dropWhile pyIsSpace).reverse.dropWhile pyIsSpace).reverse

/-- Python `s.replace(q, anything-empty)` for a one-character pattern `q`:
removes every occurrence of `q`. -/
def removeChar (q : Char) (s : Str) : Str := s.filter (fun c => c != q)

/-- Python `str.lower()` restricted to ASCII letters (filename extensions in
this code are ASCII). -/
def asciiLower (c : Char) : Char :=
  if 65 ≤ c.toNat ∧ c.toNat ≤ 90 then Char.ofNat (c.toNat + 32) else c

/-- Lower-case every character of a string. -/
def lowerStr (s : Str) : Str := s.map asciiLower

/-- Python `str.rfind(c)` for a single character: index of the last occurrence,
`-1` when absent.  `i` is the index of the head of the remaining list. -/
def rfindCharGo (c : Char) : Str → Int → Int → Int
  | [], _, acc => acc
  | x :: r, i, acc => rfindCharGo c r (i + 1) (if x == c then i else acc)

/-- Python `str.rfind(c)`. -/
def rfindChar (c : Char) (s : Str) : Int := rfindCharGo c s 0 (-1)

/-- The extension component of `os.path.splitext` (posix semantics): the suffix
from the last dot, unless every character between the last path separator and
that dot is itself a dot, in which case the extension is empty. -/
def splitextExt (p : Str) : Str :=
  let sepIndex := rfindChar '/' p
  let dotIndex := rfindChar '.' p
  if sepIndex < dotIndex then
    let between := (p.drop (sepIndex + 1).toNat).take (dotIndex - sepIndex - 1).toNat
    if between.all (fun c => c == '.') then [] else p.drop dotIndex.toNat
  else []

/-- The format tags dispatched by `process_uploaded_file`
(src/processor.py lines 30, 35, 66, 88). -/
inductive FileFormat
  | pdf | xlsx | xls | csv | txt | md | py
deriving DecidableEq

/-- `file_ext = os.path.splitext(uploaded_file.name)[1].lower()`
(src/processor.py line 19). -/
def fileExtOf (name : Str) : Str := lowerStr (splitextExt name)

/-- The extension dispatch chain of `process_uploaded_file`
(src/processor.py lines 30-93): `.pdf`, then `.xlsx`/`.xls`, then `.csv`,
then `.txt`/`.md`/`.py`; anything else is unsupported. -/
def dispatchFormat (name : Str) : Option FileFormat :=
  let ext := fileExtOf name
  if ext = strL (".pdf") then some FileFormat.pdf
  else if ext = strL (".xlsx") then some FileFormat.xlsx
  else if ext = strL (".xls") then some FileFormat.xls
  else if ext = strL (".csv") then some FileFormat.csv
  else if ext = strL (".txt") then some FileFormat.txt
  else if ext = strL (".md") then some FileFormat.md
  else if ext = strL (".py") then some FileFormat.py
  else none

/-- A langchain `Document`: page content plus its `source` metadata entry. -/
structure LCDocument where
  text : Str
  source : Str
deriving DecidableEq

/-- One sheet of the dict returned by `pd.read_excel(path, sheet_name=None)`:
sheet name, headers already coerced to strings (`df.columns.astype(str)`),
and the cell grid where `none` models a missing value (NaN). -/
structure Sheet where
  sheetName : Str
  headers : List Str
  rows : List (List (Option Str))
deriving DecidableEq

/-- `df.fillna("")`: replace every missing cell by the empty string. -/
def fillna (rows : List (List (Option Str))) : List (List Str) :=
  rows.map (fun r => r.map (fun c => c.getD []))

/-- The type of the external `to_markdown(index=False)` capability
(pandas/tabulate): renders headers and rows to text. -/
abbrev MarkdownFn := List Str → List (List Str) → Str

/-- The per-sheet data card built by the xlsx/xls branch
(src/processor.py lines 50-59), including the f-string's literal
indentation.  `df.head(20)` is `rows.take 20`. -/
def sheetContent (md : MarkdownFn) (s : Sheet) : Str :=
  strL ("\n                --- SHEET: ") ++ s.sheetName ++
  strL (" ---\n                COLUMN HEADERS: [") ++ pyJoin (strL (", ")) s.headers ++
  strL ("]\n                \n                FIRST 20 ROWS OF DATA:\n                ") ++
  md s.headers ((fillna s.rows).take 20) ++
  strL ("\n                \n                FULL DATA (Markdown):\n                ") ++
  md s.headers (fillna s.rows) ++
  strL ("\n                ")

/-- The csv data card (src/processor.py lines 75-84). -/
def csvCard (md : MarkdownFn) (name : Str) (headers : List Str)
    (rows : List (List (Option Str))) : Str :=
  strL ("\n            FILE: ") ++ name ++
  strL ("\n            COLUMN HEADERS: [") ++ pyJoin (strL (", ")) headers ++
  strL ("]\n            \n            FIRST 20 ROWS SAMPLE:\n            ") ++
  md headers ((fillna rows).take 20) ++
  strL ("\n            \n            FULL DATA:\n            ") ++
  md headers (fillna rows) ++
  strL ("\n            ")

/-- The external parsing capabilities consumed by `process_uploaded_file`:
`PyPDFLoader(path).load()`, `TextLoader(path).load()`, `pd.read_excel`,
`pd.read_csv` (headers already `astype(str)`), and `to_markdown`. -/
structure ExternalParsers where
  pdfLoad : Str → List LCDocument
  txtLoad : Str → List LCDocument
  readExcel : Str → List Sheet
  readCsvHeaders : Str → List Str
  readCsvRows : Str → List (List (Option Str))
  toMarkdown : MarkdownFn

/-- The `ValueError(f"Unsupported file type: {file_ext}")` raised at
src/processor.py line 93. -/
inductive NormError
  | unsupported (ext : Str)
deriving DecidableEq

/-- The single document built by the xlsx/xls branch: the per-sheet cards
joined by newlines (src/processor.py lines 62-63), with the uploaded
file's name as source metadata. -/
def excelDocument (ps : ExternalParsers) (name tmpPath : Str) : LCDocument :=
  ⟨pyJoin (strL ("\n")) ((ps.readExcel tmpPath).map (sheetContent ps.toMarkdown)), name⟩

/-- The normalization stage of `process_uploaded_file`
(src/processor.py lines 25-93): dispatch on the lowercased extension and
produce the raw documents, or fail with the unsupported-format error. -/
def process_uploaded_file (ps : ExternalParsers) (name tmpPath : Str) :
    Except NormError (List LCDocument) :=
  match dispatchFormat name with
  | some FileFormat.pdf => Except.ok (ps.pdfLoad tmpPath)
  | some FileFormat.xlsx => Except.ok [excelDocument ps name tmpPath]
  | some FileFormat.xls => Except.ok [excelDocument ps name tmpPath]
  | some FileFormat.csv =>
      Except.ok [⟨csvCard ps.toMarkdown name (ps.readCsvHeaders tmpPath)
        (ps.readCsvRows tmpPath), name⟩]
  | some FileFormat.txt => Except.ok (ps.txtLoad tmpPath)
  | some FileFormat.md => Except.ok (ps.txtLoad tmpPath)
  | some FileFormat.py => Except.ok (ps.txtLoad tmpPath)
  | none => Except.error (NormError.unsupported (fileExtOf name))

/-- Models the external `TextLoader` capability used for txt/md/py files:
loading the file at a path yields one document holding the file contents,
with the loaded path (here: the temporary path) as its source metadata. -/
def textLoaderModel (contents : Str) : Str → List LCDocument :=
  fun path => [⟨contents, path⟩]

/-- Parser stub whose capabilities all return empty data; used to evaluate
branches of `process_uploaded_file` that never consult them. -/
def trivialParsers : ExternalParsers :=
  ⟨fun _ => [], fun _ => [], fun _ => [], fun _ => [], fun _ => [], fun _ _ => []⟩

instance instDecEqExcept {ε α : Type} [DecidableEq ε] [DecidableEq α] :
    DecidableEq (Except ε α) := fun a b =>
  match a, b with
  | Except.ok x, Except.ok y =>
      if h : x = y then isTrue (by rw [h]) else isFalse (fun hc => by cases hc; exact h rfl)
  | Except.error x, Except.error y =>
      if h : x = y then isTrue (by rw [h]) else isFalse (fun hc => by cases hc; exact h rfl)
  | Except.ok _, Except.error _ => isFalse (fun hc => by cases hc)
  | Except.error _, Except.ok _ => isFalse (fun hc => by cases hc)

/-- How the body of the try block in `process_uploaded_file` can exit
(src/processor.py lines 25-105): normal return, a parser exception, or the
unsupported-format error. -/
inductive BodyOutcome
  | parsed | parseFailed | badFormat
deriving DecidableEq

/-- File-system trace of `process_uploaded_file`'s temp-file handling
(src/processor.py lines 21-23 and 107-109): the uploaded bytes are written
to `tmpPath` (`NamedTemporaryFile(delete=False)`), the parsing body runs
inside `try`, and the `finally` block removes `tmpPath` when it still
exists.  Returns the body's outcome and the final file set. -/
def ingestionTrace (fs0 : List Str) (tmpPath : Str) (body : BodyOutcome) :
    BodyOutcome × List Str :=
  let fsWithTmp := tmpPath :: fs0
  let fsFinal := if tmpPath ∈ fsWithTmp then fsWithTmp.erase tmpPath else fsWithTmp
  (body, fsFinal)

/-- The `k` argument passed to `vector_store.similarity_search`
(src/processor.py line 117): the literal 3, independent of the store. -/
def retrieval_k : Nat := 3

/-- Models the external FAISS search capability: the store is the list of
chunk texts ranked by similarity for the query, and a search with limit
`k` returns its first `k` entries (never more than the store holds). -/
def similarity_search (store : List Str) (k : Nat) : List Str := store.take k

/-- The chunks retrieved by `query_local_model` (src/processor.py line 117). -/
def query_local_model_docs (store : List Str) : List Str :=
  similarity_search store retrieval_k

/-- `extract_search_keyword` (src/processor.py lines 146-173).  The single
ollama call is modelled by its optional response: `none` models any
exception from the call, handled by the `except` clause which returns the
original query; a response is stripped of surrounding whitespace and of
every double and single quote. -/
def extract_search_keyword (response : Option Str) (user_query : Str) : Str :=
  match response with
  | some content => removeChar '\x27' (removeChar '\x22' (pyStrip content))
  | none => user_query

/-- A scouted file record (name and path), as produced by DiskScout. -/
structure ScoutMatch where
  name : Str
  path : Str
deriving DecidableEq

/-- One message pair sent to the ollama chat capability. -/
structure ChatCall where
  systemMsg : Str
  userMsg : Str

/-- The per-match context block built at src/app.py line 118:
`f"FILENAME: {m.name}\nCONTENT: {content[:4000]}..."`. -/
def fileBlock (m : ScoutMatch) (content : Str) : Str :=
  strL ("FILENAME: ") ++ m.name ++ strL ("\nCONTENT: ") ++
    content.take 4000 ++ strL ("...")

/-- `context_text = "\n\n".join(file_contents)` (src/app.py line 122). -/
def diskContext (contentOf : ScoutMatch → Str) (ms : List ScoutMatch) : Str :=
  pyJoin (strL ("\n\n")) (ms.map (fun m => fileBlock m (contentOf m)))

/-- The disk-mode system prompt (src/app.py lines 124-137), with the
f-string's literal indentation. -/
def diskSystemPrompt (query ctx : Str) : Str :=
  strL ("\n                You are DocuSenseAI. \n                The user has asked a question about these specific local files.\n                \n                USER INSTRUCTION: ") ++
  query ++
  strL ("\n                \n                FILES FOUND:\n                ") ++
  ctx ++
  strL ("\n                \n                Instructions:\n                - If the user asks to \x22write the content\x22, output the file content verbatim.\n                - If the user asks for a summary, summarize.\n                - Explicitly mention which file you are reading.\n                ")

/-- The disk-scout answer path for a non-empty match list
(src/app.py lines 111-150): read each match lazily, build the joined
context, issue one chat call, and report the full match list back.
Returns the answer, the disclosed matches, and the list of chat calls
issued. -/
def diskAnswerFlow (query : Str) (contentOf : ScoutMatch → Str)
    (chat : ChatCall → Str) (ms : List ScoutMatch) :
    Str × List ScoutMatch × List ChatCall :=
  let ctx := diskContext contentOf ms
  let call : ChatCall :=
    ⟨diskSystemPrompt query ctx, strL ("Execute the instruction based on the files above.")⟩
  (chat call, ms, [call])

/-- What the UI shows in response to a query. -/
inductive UiEvent
  | errorMsg (msg : Str)
  | warnMsg (msg : Str)
  | answerShown (answer : Str)

/-- Upload-mode ask handler (src/app.py lines 76-87): query the vector
store when one exists, otherwise show the upload-first error message. -/
def uploadModeAsk (vectorStore : Option (List Str)) (answerOf : List Str → Str) : UiEvent :=
  match vectorStore with
  | some vs => UiEvent.answerShown (answerOf vs)
  | none => UiEvent.errorMsg (strL ("Please upload a document first."))

/-- The warning shown when the scout finds nothing (src/app.py line 109). -/
def noFilesMsg (keyword : Str) : Str :=
  strL ("No files found containing \x27") ++ keyword ++
  strL ("\x27. Try specifying the filename explicitly (e.g., \x27Check the notes file\x27).")

/-- Disk-mode ask handler (src/app.py lines 104-150): warn when the scout
returns no matches, otherwise run the answer flow. -/
def diskModeAsk (query : Str) (contentOf : ScoutMatch → Str) (chat : ChatCall → Str)
    (keyword : Str) (ms : List ScoutMatch) : UiEvent :=
  if ms.isEmpty then UiEvent.warnMsg (noFilesMsg keyword)
  else UiEvent.answerShown (diskAnswerFlow query contentOf chat ms).1

/-! ### Chunker

`process_uploaded_file` splits the normalized documents with langchain's
`RecursiveCharacterTextSplitter(chunk_size=1500, chunk_overlap=150,
add_start_index=True)` (src/processor.py lines 97-102).  The splitter is
modelled faithfully from that library: recursive splitting over the
default separator hierarchy `["\n\n", "\n", " ", ""]` with the separator
kept on the following piece, greedy merging of pieces up to the chunk
size with an overlap of trailing pieces kept up to the overlap budget,
whitespace-stripped chunks, and start offsets recovered by `str.find`
from `max(0, previous_index + previous_length - overlap)`. -/

/-- `chunk_size=1500` (src/processor.py line 98). -/
def chunk_size : Nat := 1500

/-- `chunk_overlap=150` (src/processor.py line 99). -/
def chunk_overlap : Nat := 150

/-- Does `sep` occur in the text?  (The separator-selection test.) -/
def containsSubstring (sep : Str) : Str → Bool
  | [] => sep.isPrefixOf []
  | c :: rest => sep.isPrefixOf (c :: rest) || containsSubstring sep rest

/-- Separator selection: scan the hierarchy for the first separator that is
empty or occurs in the text; return it with the remaining hierarchy. -/
def chooseSep (text : Str) : List Str → Option (Str × List Str)
  | [] => none
  | s :: rest =>
    if s = [] then some ([], [])
    else if containsSubstring s text then some (s, rest)
    else chooseSep text rest

/-- Separator selection including the fallback when no separator matched:
the last separator of the hierarchy with no remaining hierarchy. -/
def chooseSepTop (text : Str) (seps : List Str) : Str × List Str :=
  match chooseSep text seps with
  | some pr => pr
  | none => (seps.getLastD [], [])

/-- Split the text at every occurrence of the separator `s0 :: s1`
(leftmost, non-overlapping); pieces do not include the separator.
`acc` is the reversed current piece, `skip` the number of separator
characters still to consume after a match. -/
def splitGo (s0 : Char) (s1 : Str) : Str → Str → Nat → List Str
  | [], acc, _ => [acc.reverse]
  | c :: rest, acc, skip =>
    match skip with
    | Nat.succ n => splitGo s0 s1 rest acc n
    | 0 =>
      if (s0 :: s1).isPrefixOf (c :: rest) then
        acc.reverse :: splitGo s0 s1 rest [] s1.length
      else
        splitGo s0 s1 rest (c :: acc) 0

/-- Split with a kept separator: the separator is reattached to the front of
each following piece, and empty pieces are dropped; the empty separator
splits into single characters. -/
def splitTextWithSep (sep : Str) (text : Str) : List Str :=
  match sep with
  | [] => (text.map (fun c => [c])).filter (fun s => !s.isEmpty)
  | s0 :: s1 =>
    match splitGo s0 s1 text [] 0 with
    | [] => []
    | t0 :: ts => (t0 :: ts.map (fun t => (s0 :: s1) ++ t)).filter (fun s => !s.isEmpty)

/-- Total length of a list of pieces. -/
def sumLens (l : List Str) : Nat := (l.map List.length).sum

/-- Join the pending pieces (the merge separator is empty because the
splitter keeps separators on the pieces), strip whitespace, and drop the
chunk when nothing remains. -/
def joinDocs (current : List Str) : Option Str :=
  let text := pyStrip (pyJoin [] current)
  if text.isEmpty then none else some text

/-- After a chunk is emitted, drop leading pending pieces while the pending
total exceeds the overlap budget, or while it would not leave room for
the next piece within the chunk size. -/
def shrinkOverlap (lenNext : Nat) : List Str → Nat → List Str × Nat
  | [], tot => ([], tot)
  | c :: cs, tot =>
    if chunk_overlap < tot ∨ (chunk_size < tot + lenNext ∧ 0 < tot) then
      shrinkOverlap lenNext cs (tot - c.length)
    else (c :: cs, tot)

/-- The merge-loop state: emitted chunks, pending pieces, pending total. -/
structure MergeState where
  docs : List Str
  current : List Str
  total : Nat
deriving DecidableEq

/-- One step of the greedy merge: when the next piece would overflow the
chunk size and pieces are pending, emit the pending chunk and keep an
overlap; then append the piece. -/
def mergeStep (st : MergeState) (d : Str) : MergeState :=
  if chunk_size < st.total + d.length ∧ st.current ≠ [] then
    let docsFlushed :=
      match joinDocs st.current with
      | some doc => st.docs ++ [doc]
      | none => st.docs
    let pr := shrinkOverlap d.length st.current st.total
    ⟨docsFlushed, pr.1 ++ [d], pr.2 + d.length⟩
  else ⟨st.docs, st.current ++ [d], st.total + d.length⟩

/-- Greedy merge of short pieces into chunks of at most `chunk_size`
characters with overlap at most `chunk_overlap`. -/
def mergeSplits (splits : List Str) : List Str :=
  match joinDocs (splits.foldl mergeStep ⟨[], [], 0⟩).current with
  | some doc => (splits.foldl mergeStep ⟨[], [], 0⟩).docs ++ [doc]
  | none => (splits.foldl mergeStep ⟨[], [], 0⟩).docs

/-- The loop body of the recursive splitter: pieces shorter than the chunk
size are collected and merged; a long piece flushes the collected pieces
and is either appended raw (no finer separators) or split recursively via
`recurse`. -/
def splitChunksLoopG (recurse : Str → List Str) (noFiner : Bool) :
    List Str → List Str → List Str → List Str
  | [], goods, finals =>
      if goods.isEmpty then finals else finals ++ mergeSplits goods
  | s :: rest, goods, finals =>
    if s.length < chunk_size then
      splitChunksLoopG recurse noFiner rest (goods ++ [s]) finals
    else if noFiner then
      splitChunksLoopG recurse noFiner rest []
        ((if goods.isEmpty then finals else finals ++ mergeSplits goods) ++ [s])
    else
      splitChunksLoopG recurse noFiner rest []
        ((if goods.isEmpty then finals else finals ++ mergeSplits goods) ++ recurse s)

/-- The recursive splitter, with a fuel argument bounding the recursion
depth.  Each recursive call uses a strictly shorter separator hierarchy,
so a fuel of one more than the hierarchy length is always sufficient. -/
def splitTextFuel : Nat → Str → List Str → List Str
  | 0, _, _ => []
  | _ + 1, _, [] => []
  | fuel + 1, text, s :: rest =>
      splitChunksLoopG (fun t => splitTextFuel fuel t (chooseSepTop text (s :: rest)).2)
        (chooseSepTop text (s :: rest)).2.isEmpty
        (splitTextWithSep (chooseSepTop text (s :: rest)).1 text) [] []

/-- The default separator hierarchy of `RecursiveCharacterTextSplitter`. -/
def defaultSeparators : List Str := [strL ("\n\n"), strL ("\n"), strL (" "), []]

/-- `split_text`: the chunk texts of one document. -/
def splitText (text : Str) : List Str :=
  splitTextFuel (defaultSeparators.length + 1) text defaultSeparators

/-- Least index `j ≥ i` at which `sub` starts in the remaining text. -/
def pyFindGo (sub : Str) : Str → Nat → Option Nat
  | [], i => if sub.isPrefixOf [] then some i else none
  | c :: r, i => if sub.isPrefixOf (c :: r) then some i else pyFindGo sub r (i + 1)

/-- Python `text.find(sub, start)`: least index `≥ start` at which `sub`
occurs, `none` (python: -1) when absent. -/
def pyFind (text sub : Str) (start : Nat) : Option Nat :=
  pyFindGo sub (text.drop start) start

/-- A chunk text together with its recovered start offset. -/
structure IndexedChunk where
  text : Str
  startIndex : Int
deriving DecidableEq

/-- The `add_start_index` bookkeeping: the next chunk is searched for from
`max(0, index + previous_chunk_len - chunk_overlap)`; a failed search is
recorded as -1. -/
def nextIndex (text chunkText : Str) (index : Int) (prevLen : Nat) : Int :=
  match pyFind text chunkText
      (max 0 (index + (prevLen : Int) - (chunk_overlap : Int))).toNat with
  | some j => (j : Int)
  | none => -1

/-- Attach start offsets to the chunks of one document, threading the
previous offset and length exactly as `create_documents` does. -/
def addStartIndexGo (text : Str) : List Str → Int → Nat → List IndexedChunk
  | [], _, _ => []
  | c :: rest, index, prevLen =>
    let idx := nextIndex text c index prevLen
    ⟨c, idx⟩ :: addStartIndexGo text rest idx c.length

/-- The indexed chunks of one document (`index` starts at 0 with a previous
length of 0). -/
def addStartIndex (text : Str) (chunks : List Str) : List IndexedChunk :=
  addStartIndexGo text chunks 0 0

/-- A chunk as stored in the index: text, inherited source metadata, and
start offset. -/
structure ChunkDoc where
  text : Str
  source : Str
  startIndex : Int
deriving DecidableEq

/-- `text_splitter.split_documents(raw_docs)` (src/processor.py line 102):
each document is split independently and every chunk inherits its own
document's source metadata. -/
def split_documents (docs : List LCDocument) : List ChunkDoc :=
  docs.flatMap (fun d =>
    (addStartIndex d.text (splitText d.text)).map
      (fun ic => ⟨ic.text, d.source, ic.startIndex⟩))

/-! ### Basic lemmas -/

/-- Every element of a joined list is a contiguous substring of the join. -/
lemma mem_infix_pyJoin (sep : Str) : ∀ {l : List Str} {x : Str}, x ∈ l → x <:+: pyJoin sep l := by
  intro l
  induction l with
  | nil => intro x hx; cases hx
  | cons y ys ih =>
    intro x hx
    cases ys with
    | nil =>
      rw [List.mem_singleton.mp hx]
      exact List.infix_refl _
    | cons z r =>
      rcases List.mem_cons.mp hx with h | h
      · subst h
        exact ⟨[], sep ++ pyJoin sep (z :: r), by simp [pyJoin]⟩
      · obtain ⟨s, t, hst⟩ := ih h
        exact ⟨(y ++ sep) ++ s, t, by simp [pyJoin, ← hst]⟩

/-- A join whose first part is non-empty is non-empty. -/
lemma pyJoin_head_ne_nil (sep : Str) (x : Str) (xs : List Str) (hx : x ≠ []) :
    pyJoin sep (x :: xs) ≠ [] := by
  cases xs with
  | nil => simpa [pyJoin] using hx
  | cons y r => simp [pyJoin, hx]

/-- The per-sheet card text is never empty (it starts with a newline). -/
lemma sheetContent_ne_nil (md : MarkdownFn) (s : Sheet) : sheetContent md s ≠ [] :=
  fun h => List.noConfusion h

/-- The csv card text is never empty (it starts with a newline). -/
lemma csvCard_ne_nil (md : MarkdownFn) (name : Str) (hs : List Str)
    (rows : List (List (Option Str))) : csvCard md name hs rows ≠ [] :=
  fun h => List.noConfusion h

/-! ### Claim C1 (format dispatch) -/

/-- Claim C1: contrary to the claim, the docx tag is rejected by
`process_uploaded_file`'s dispatch with the unsupported-format error even
though the function's docstring, the unused `Docx2txtLoader` import and
the app's upload whitelist all promise docx support; the remaining
claimed tags pass dispatch, and so does the undocumented `.py` tag. -/
theorem docx_rejected_by_dispatch :
    dispatchFormat (strL ("report.docx")) = none ∧
    process_uploaded_file trivialParsers (strL ("report.docx")) (strL ("/tmp/tmp1a2b.docx")) =
      Except.error (NormError.unsupported (strL (".docx"))) ∧
    dispatchFormat (strL ("a.pdf")) = some FileFormat.pdf ∧
    dispatchFormat (strL ("a.xlsx")) = some FileFormat.xlsx ∧
    dispatchFormat (strL ("a.xls")) = some FileFormat.xls ∧
    dispatchFormat (strL ("a.csv")) = some FileFormat.csv ∧
    dispatchFormat (strL ("a.txt")) = some FileFormat.txt ∧
    dispatchFormat (strL ("a.md")) = some FileFormat.md ∧
    dispatchFormat (strL ("script.py")) = some FileFormat.py := by
  refine ⟨by decide, by decide, by decide, by decide, by decide, by decide, by decide,
    by decide, by decide⟩

/-! ### Claim C2 (xlsx normalization) -/

/-- A two-sheet workbook, as returned by the external `pd.read_excel`. -/
def sheetJan : Sheet := ⟨strL ("Jan"), [strL ("A")], [[some (strL ("1"))]]⟩

/-- Second sheet of the two-sheet workbook. -/
def sheetFeb : Sheet := ⟨strL ("Feb"), [strL ("B")], [[some (strL ("2"))]]⟩

/-- Parser stub returning the two-sheet workbook. -/
def twoSheetParsers : ExternalParsers :=
  ⟨fun _ => [], fun _ => [], fun _ => [sheetJan, sheetFeb], fun _ => [],
    fun _ => [], fun _ _ => []⟩

/-- Claim C2 counterexample: a two-sheet xlsx upload yields exactly one
normalized document, not one per sheet. -/
theorem xlsx_emits_single_document :
    ((process_uploaded_file twoSheetParsers (strL ("wb.xlsx")) (strL ("/tmp/t.xlsx"))).toOption.map
      List.length) = some 1 ∧
    (twoSheetParsers.readExcel (strL ("/tmp/t.xlsx"))).length = 2 ∧
    (1 : Nat) ≠ 2 := by
  refine ⟨by decide, by decide, by decide⟩

/-- Claim C2 (amended): an xlsx/xls upload yields exactly one normalized
document, whose text contains, for every sheet, that sheet's card — sheet
name, ordered header list, markdown of the first 20 rows, and markdown of
the full table — as a contiguous block. -/
theorem xlsx_single_card_per_sheet (ps : ExternalParsers) (name tmp : Str)
    (hfmt : dispatchFormat name = some FileFormat.xlsx ∨
      dispatchFormat name = some FileFormat.xls) :
    ∃ d : LCDocument,
      process_uploaded_file ps name tmp = Except.ok [d] ∧
      d.source = name ∧
      ∀ s ∈ ps.readExcel tmp, sheetContent ps.toMarkdown s <:+: d.text := by
  refine ⟨excelDocument ps name tmp, ?_, rfl, ?_⟩
  · unfold process_uploaded_file
    rcases hfmt with h | h <;> rw [h]
  · intro s hs
    exact mem_infix_pyJoin _ (List.mem_map_of_mem _ hs)

/-- Witness for the amended C2 theorem at the two-sheet workbook. -/
theorem xlsx_single_card_per_sheet_witness :
    ∃ d : LCDocument,
      process_uploaded_file twoSheetParsers (strL ("wb.xlsx")) (strL ("/tmp/t.xlsx")) =
        Except.ok [d] ∧
      d.source = strL ("wb.xlsx") ∧
      ∀ s ∈ twoSheetParsers.readExcel (strL ("/tmp/t.xlsx")),
        sheetContent twoSheetParsers.toMarkdown s <:+: d.text :=
  xlsx_single_card_per_sheet twoSheetParsers _ _ (Or.inl (by decide))

/-! ### Claim C3 (normalized sources) -/

/-- Parser stub whose TextLoader capability loads the contents `hello`. -/
def helloTxtParsers : ExternalParsers :=
  ⟨fun _ => [], textLoaderModel (strL ("hello")), fun _ => [], fun _ => [],
    fun _ => [], fun _ _ => []⟩

/-- Claim C3 counterexample: a non-empty txt upload named `notes.txt` yields a
single document whose source metadata is the temporary path the loader was
given, not the uploaded filename. -/
theorem txt_source_is_temp_path :
    process_uploaded_file helloTxtParsers (strL ("notes.txt")) (strL ("/tmp/tmpw3q8xk.txt")) =
      Except.ok [⟨strL ("hello"), strL ("/tmp/tmpw3q8xk.txt")⟩] ∧
    strL ("/tmp/tmpw3q8xk.txt") ≠ strL ("notes.txt") := by
  refine ⟨by decide, by decide⟩

/-- Claim C3 (amended): the tabular branches (xlsx with at least one sheet,
and csv) emit exactly one document with non-empty text whose source is the
uploaded filename, while the pdf and txt/md branches return the external
parser's documents for the temporary path unchanged — under the TextLoader
model their source is the temporary path. -/
theorem normalization_amended :
    (∀ (ps : ExternalParsers) (name tmp : Str),
      dispatchFormat name = some FileFormat.xlsx → ps.readExcel tmp ≠ [] →
      ∃ d, process_uploaded_file ps name tmp = Except.ok [d] ∧
        d.source = name ∧ d.text ≠ []) ∧
    (∀ (ps : ExternalParsers) (name tmp : Str),
      dispatchFormat name = some FileFormat.csv →
      ∃ d, process_uploaded_file ps name tmp = Except.ok [d] ∧
        d.source = name ∧ d.text ≠ []) ∧
    (∀ (contents : Str) (ps : ExternalParsers) (name tmp : Str),
      dispatchFormat name = some FileFormat.txt →
      ps.txtLoad = textLoaderModel contents →
      process_uploaded_file ps name tmp = Except.ok [⟨contents, tmp⟩]) ∧
    (∀ (ps : ExternalParsers) (name tmp : Str),
      dispatchFormat name = some FileFormat.pdf →
      process_uploaded_file ps name tmp = Except.ok (ps.pdfLoad tmp)) := by
  refine ⟨?_, ?_, ?_, ?_⟩
  · intro ps name tmp hfmt hsheets
    refine ⟨excelDocument ps name tmp, ?_, rfl, ?_⟩
    · unfold process_uploaded_file
      rw [hfmt]
    · show pyJoin (strL ("\n")) ((ps.readExcel tmp).map (sheetContent ps.toMarkdown)) ≠ []
      cases hs : ps.readExcel tmp with
      | nil => exact absurd hs hsheets
      | cons s ss =>
        exact pyJoin_head_ne_nil _ _ _ (sheetContent_ne_nil _ _)
  · intro ps name tmp hfmt
    refine ⟨⟨csvCard ps.toMarkdown name (ps.readCsvHeaders tmp) (ps.readCsvRows tmp), name⟩,
      ?_, rfl, csvCard_ne_nil _ _ _ _⟩
    unfold process_uploaded_file
    rw [hfmt]
  · intro contents ps name tmp hfmt hload
    unfold process_uploaded_file
    rw [hfmt, hload]
    rfl
  · intro ps name tmp hfmt
    unfold process_uploaded_file
    rw [hfmt]

/-- Witness for the amended C3 theorem: the xlsx part at the two-sheet
workbook, and the txt part at the modelled loader. -/
theorem normalization_amended_witness :
    (∃ d, process_uploaded_file twoSheetParsers (strL ("wb.xlsx")) (strL ("/tmp/t.xlsx")) =
        Except.ok [d] ∧ d.source = strL ("wb.xlsx") ∧ d.text ≠ []) ∧
    process_uploaded_file helloTxtParsers (strL ("notes.txt")) (strL ("/tmp/tmpw3q8xk.txt")) =
      Except.ok [⟨strL ("hello"), strL ("/tmp/tmpw3q8xk.txt")⟩] :=
  ⟨normalization_amended.1 twoSheetParsers _ _ (by decide) (by decide),
    normalization_amended.2.2.1 (strL ("hello")) helloTxtParsers _ _ (by decide) rfl⟩

/-! ### Claim C5 (retrieval k) -/

/-- Claim C5 counterexample: against an index holding a single chunk the code
still requests k = 3, which is neither `min 3 1` nor bounded by the index
size; only the external index keeps the result within what it holds. -/
theorem retrieval_k_not_min :
    retrieval_k = 3 ∧
    ¬ (retrieval_k = min 3 ([strL ("only chunk")] : List Str).length) ∧
    ¬ (retrieval_k ≤ ([strL ("only chunk")] : List Str).length) ∧
    similarity_search [strL ("only chunk")] retrieval_k = [strL ("only chunk")] := by
  refine ⟨rfl, by decide, by decide, by decide⟩

/-- Claim C5 (amended): the retriever always requests k = 3, and the number
of chunks actually retrieved is `min 3 chunkCount` because the external
index returns at most what it holds. -/
theorem retrieval_request_and_result (store : List Str) :
    retrieval_k = 3 ∧ (query_local_model_docs store).length = min 3 store.length := by
  refine ⟨rfl, ?_⟩
  simp [query_local_model_docs, similarity_search, retrieval_k]

/-! ### Claim C6 (keyword extraction) -/

/-- Claim C6 counterexample: a model response consisting of two double quotes
makes `extract_search_keyword` return the empty string. -/
theorem extract_keyword_empty_result :
    extract_search_keyword (some (strL ("\x22\x22"))) (strL ("show me the budget")) = [] := by
  decide

/-- Claim C6 (amended): `extract_search_keyword` is total; when the model call
fails it returns the original query unchanged, and when it succeeds it
returns the response stripped of whitespace and of every quote character —
a result that can be empty. -/
theorem extract_keyword_amended (q c : Str) :
    extract_search_keyword none q = q ∧
    '\x22' ∉ extract_search_keyword (some c) q ∧
    '\x27' ∉ extract_search_keyword (some c) q := by
  refine ⟨rfl, ?_, ?_⟩ <;> simp [extract_search_keyword, removeChar, List.mem_filter]

/-! ### Claim C7 (context assembly) -/

/-- Claim C7 counterexample: every context block carries a literal trailing
ellipsis after the truncated content, so the block is not of the exact
claimed form `FILENAME: <name>\nCONTENT: <truncated>`. -/
theorem fileBlock_has_ellipsis :
    fileBlock ⟨strL ("a.txt"), strL ("/d/a.txt")⟩ (strL ("hi")) ≠
      strL ("FILENAME: ") ++ strL ("a.txt") ++ strL ("\nCONTENT: ") ++
        (strL ("hi")).take 4000 ∧
    fileBlock ⟨strL ("a.txt"), strL ("/d/a.txt")⟩ (strL ("hi")) =
      strL ("FILENAME: a.txt\nCONTENT: hi...") := by
  refine ⟨by decide, by decide⟩

/-- Claim C7 (amended): for a non-empty match list the assembler builds one
block per match of the form `FILENAME: <name>\nCONTENT: <first 4000
characters>...`, each block is a contiguous part of the blank-line-joined
context, exactly one chat call is issued, and the full match list is
returned to the caller. -/
theorem disk_flow_amended (query : Str) (contentOf : ScoutMatch → Str)
    (chat : ChatCall → Str) (ms : List ScoutMatch) (_hne : ms ≠ []) :
    (diskAnswerFlow query contentOf chat ms).2.1 = ms ∧
    (diskAnswerFlow query contentOf chat ms).2.2.length = 1 ∧
    ∀ m ∈ ms,
      fileBlock m (contentOf m) =
        strL ("FILENAME: ") ++ m.name ++ strL ("\nCONTENT: ") ++
          (contentOf m).take 4000 ++ strL ("...") ∧
      fileBlock m (contentOf m) <:+: diskContext contentOf ms := by
  refine ⟨rfl, rfl, fun m hm => ⟨rfl, ?_⟩⟩
  exact mem_infix_pyJoin _ (List.mem_map_of_mem _ hm)

/-- Witness for the amended C7 theorem at a single concrete match. -/
theorem disk_flow_amended_witness :
    (diskAnswerFlow (strL ("read it")) (fun _ => strL ("hi")) (fun _ => strL ("ok"))
        [⟨strL ("a.txt"), strL ("/d/a.txt")⟩]).2.1 = [⟨strL ("a.txt"), strL ("/d/a.txt")⟩] ∧
    (diskAnswerFlow (strL ("read it")) (fun _ => strL ("hi")) (fun _ => strL ("ok"))
        [⟨strL ("a.txt"), strL ("/d/a.txt")⟩]).2.2.length = 1 ∧
    ∀ m ∈ [(⟨strL ("a.txt"), strL ("/d/a.txt")⟩ : ScoutMatch)],
      fileBlock m (strL ("hi")) =
        strL ("FILENAME: ") ++ m.name ++ strL ("\nCONTENT: ") ++
          (strL ("hi")).take 4000 ++ strL ("...") ∧
      fileBlock m (strL ("hi")) <:+:
        diskContext (fun _ => strL ("hi")) [⟨strL ("a.txt"), strL ("/d/a.txt")⟩] :=
  disk_flow_amended (strL ("read it")) (fun _ => strL ("hi")) (fun _ => strL ("ok"))
    [⟨strL ("a.txt"), strL ("/d/a.txt")⟩] (by decide)

/-! ### Claim C8 (temp-file cleanup) -/

/-- Claim C8: the temporary file holding the uploaded bytes is removed on
every exit path of `process_uploaded_file` — success, parse failure, and
unsupported format alike — and the body's outcome is passed through. -/
theorem temp_file_removed (fs0 : List Str) (tmpPath : Str) (body : BodyOutcome)
    (hfresh : tmpPath ∉ fs0) :
    tmpPath ∉ (ingestionTrace fs0 tmpPath body).2 ∧
    (ingestionTrace fs0 tmpPath body).1 = body := by
  refine ⟨?_, rfl⟩
  simp [ingestionTrace, List.erase_cons_head, hfresh]

/-- Witness for the C8 theorem at a concrete fresh temp path. -/
theorem temp_file_removed_witness :
    strL ("/tmp/tmpq1.pdf") ∉
      (ingestionTrace [strL ("/home/u/a.pdf")] (strL ("/tmp/tmpq1.pdf")) BodyOutcome.parsed).2 ∧
    (ingestionTrace [strL ("/home/u/a.pdf")] (strL ("/tmp/tmpq1.pdf")) BodyOutcome.parsed).1 =
      BodyOutcome.parsed :=
  temp_file_removed [strL ("/home/u/a.pdf")] (strL ("/tmp/tmpq1.pdf")) BodyOutcome.parsed
    (by decide)

/-! ### Claim C9 (empty-result warnings) -/

/-- Claim C9: with no index built, the upload-mode handler shows the
upload-first message rather than querying anything; with no scout matches,
the disk-mode handler shows the no-files warning.  Both handlers are total
functions, so neither case crashes. -/
theorem empty_result_warnings (q kw : Str) (answerOf : List Str → Str)
    (contentOf : ScoutMatch → Str) (chat : ChatCall → Str) :
    uploadModeAsk none answerOf =
      UiEvent.errorMsg (strL ("Please upload a document first.")) ∧
    diskModeAsk q contentOf chat kw [] = UiEvent.warnMsg (noFilesMsg kw) :=
  ⟨rfl, rfl⟩

/-! ### Claim C10 (case-insensitive dispatch) -/

/-- `Char.ofNat` of a value below the surrogate range keeps its code point. -/
lemma char_toNat_ofNat {n : Nat} (h : n < 55296) : (Char.ofNat n).toNat = n := by
  unfold Char.ofNat
  rw [dif_pos (Or.inl h)]
  rfl

/-- Characters with equal code points are equal. -/
lemma char_eq_of_toNat_eq {a b : Char} (h : a.toNat = b.toNat) : a = b :=
  Char.eq_of_val_eq (UInt32.toNat.inj h)

/-- The code point of a lowered character. -/
lemma asciiLower_toNat (c : Char) :
    (asciiLower c).toNat =
      if 65 ≤ c.toNat ∧ c.toNat ≤ 90 then c.toNat + 32 else c.toNat := by
  unfold asciiLower
  split
  · next h => exact char_toNat_ofNat (by omega)
  · rfl

/-- For a target character that is neither an upper- nor a lower-case ASCII
letter (such as the dot or the path separator), lowering a character
yields the target exactly when the character already is the target. -/
lemma asciiLower_eq_iff (t : Char) (ht1 : ¬ (65 ≤ t.toNat ∧ t.toNat ≤ 90))
    (ht2 : ¬ (97 ≤ t.toNat ∧ t.toNat ≤ 122)) (x : Char) :
    asciiLower x = t ↔ x = t := by
  constructor
  · intro h
    have hx := asciiLower_toNat x
    rw [h] at hx
    by_cases hcase : 65 ≤ x.toNat ∧ x.toNat ≤ 90
    · rw [if_pos hcase] at hx
      exact absurd ⟨by omega, by omega⟩ ht2
    · rw [if_neg hcase] at hx
      exact (char_eq_of_toNat_eq hx).symm
  · intro h
    subst h
    unfold asciiLower
    rw [if_neg ht1]

/-- `rfind` for a non-letter character is unchanged by lowering. -/
lemma rfindCharGo_lower (t : Char) (hfix : ∀ x, asciiLower x = t ↔ x = t) :
    ∀ (s : Str) (i acc : Int), rfindCharGo t (lowerStr s) i acc = rfindCharGo t s i acc := by
  intro s
  induction s with
  | nil => intro i acc; rfl
  | cons x r ih =>
    intro i acc
    show rfindCharGo t (asciiLower x :: lowerStr r) i acc = _
    simp only [rfindCharGo]
    rw [ih]
    have hb : (asciiLower x == t) = (x == t) := by
      by_cases h : x = t
      · rw [h, (hfix t).mpr rfl]
      · have h2 : asciiLower x ≠ t := fun hh => h ((hfix x).mp hh)
        simp [h, h2]
    rw [hb]

/-- `rfind` for a non-letter character is unchanged by lowering. -/
lemma rfindChar_lower (t : Char) (hfix : ∀ x, asciiLower x = t ↔ x = t) (s : Str) :
    rfindChar t (lowerStr s) = rfindChar t s :=
  rfindCharGo_lower t hfix s 0 (-1)

/-- The dot is not an ASCII letter. -/
lemma dot_fix (x : Char) : asciiLower x = '.' ↔ x = '.' :=
  asciiLower_eq_iff '.' (by decide) (by decide) x

/-- The path separator is not an ASCII letter. -/
lemma slash_fix (x : Char) : asciiLower x = '/' ↔ x = '/' :=
  asciiLower_eq_iff '/' (by decide) (by decide) x

/-- `os.path.splitext` commutes with lowering: lowering changes neither the
position of the last dot nor of the last separator, nor the all-dots test
on the characters between them. -/
lemma splitextExt_lower (p : Str) : splitextExt (lowerStr p) = lowerStr (splitextExt p) := by
  have h1 : rfindChar '/' (lowerStr p) = rfindChar '/' p := rfindChar_lower _ slash_fix p
  have h2 : rfindChar '.' (lowerStr p) = rfindChar '.' p := rfindChar_lower _ dot_fix p
  simp only [splitextExt, h1, h2]
  split
  · have hall :
        (((lowerStr p).drop (rfindChar '/' p + 1).toNat).take
            (rfindChar '.' p - rfindChar '/' p - 1).toNat).all (fun c => c == '.') =
        ((p.drop (rfindChar '/' p + 1).toNat).take
            (rfindChar '.' p - rfindChar '/' p - 1).toNat).all (fun c => c == '.') := by
      unfold lowerStr
      rw [← List.map_drop, ← List.map_take, List.all_map]
      congr 1
      funext c
      show (asciiLower c == '.') = (c == '.')
      by_cases h : c = '.'
      · rw [h, (dot_fix '.').mpr rfl]
      · have h2 : asciiLower c ≠ '.' := fun hh => h ((dot_fix c).mp hh)
        simp [h, h2]
    rw [hall]
    split
    · rfl
    · unfold lowerStr
      rw [← List.map_drop]
  · rfl

/-- Claim C10: `process_uploaded_file` dispatches on the lowercased filename
extension, so filenames whose characters differ only in ASCII letter case
are dispatched identically; in particular `.PDF` and `.Csv` uploads are
processed as pdf and csv. -/
theorem dispatchFormat_lower_invariant :
    (∀ n₁ n₂ : Str, lowerStr n₁ = lowerStr n₂ → dispatchFormat n₁ = dispatchFormat n₂) ∧
    dispatchFormat (strL ("report.PDF")) = some FileFormat.pdf ∧
    dispatchFormat (strL ("data.Csv")) = some FileFormat.csv := by
  refine ⟨?_, by decide, by decide⟩
  intro n₁ n₂ h
  have hext : fileExtOf n₁ = fileExtOf n₂ := by
    unfold fileExtOf
    calc lowerStr (splitextExt n₁) = splitextExt (lowerStr n₁) := (splitextExt_lower n₁).symm
      _ = splitextExt (lowerStr n₂) := by rw [h]
      _ = lowerStr (splitextExt n₂) := splitextExt_lower n₂
  unfold dispatchFormat
  rw [hext]

/-- Witness for the C10 theorem: two case-variants of the same txt name. -/
theorem dispatchFormat_lower_witness :
    dispatchFormat (strL ("b.TXT")) = dispatchFormat (strL ("b.txt")) :=
  dispatchFormat_lower_invariant.1 (strL ("b.TXT")) (strL ("b.txt")) (by decide)

/-! ### Claim C4 (chunker guarantees) -/

/-- The start-offset relation between consecutive chunks of one document:
when the next chunk was located, it starts no more than `chunk_overlap`
characters before the end of the previous chunk, so consecutive chunks
overlap by at most `chunk_overlap` characters. -/
def overlapRel (a b : IndexedChunk) : Prop :=
  b.startIndex ≠ -1 →
    a.startIndex + (a.text.length : Int) ≤ b.startIndex + (chunk_overlap : Int)

/-- Stripping only removes characters. -/
lemma pyStrip_length_le (s : Str) : (pyStrip s).length ≤ s.length := by
  unfold pyStrip
  calc ((s.dropWhile pyIsSpace).reverse.dropWhile pyIsSpace).reverse.length
      = ((s.dropWhile pyIsSpace).reverse.dropWhile pyIsSpace).length :=
        List.length_reverse _
    _ ≤ (s.dropWhile pyIsSpace).reverse.length := (List.dropWhile_sublist _).length_le
    _ = (s.dropWhile pyIsSpace).length := List.length_reverse _
    _ ≤ s.length := (List.dropWhile_sublist _).length_le

/-- Joining with the empty separator concatenates the lengths. -/
lemma pyJoin_nil_length : ∀ l : List Str, (pyJoin [] l).length = sumLens l
  | [] => rfl
  | [x] => by simp [pyJoin, sumLens]
  | x :: y :: r => by
    have ih := pyJoin_nil_length (y :: r)
    simp only [pyJoin, sumLens, List.map_cons, List.sum_cons, List.length_append,
      List.length_nil] at ih ⊢
    omega

/-- An emitted chunk is no longer than the pending total. -/
lemma joinDocs_length_le {cur : List Str} {doc : Str} (h : joinDocs cur = some doc) :
    doc.length ≤ sumLens cur := by
  simp only [joinDocs] at h
  split at h
  · exact Option.noConfusion h
  · injection h with h
    calc doc.length = (pyStrip (pyJoin [] cur)).length := by rw [← h]
      _ ≤ (pyJoin [] cur).length := pyStrip_length_le _
      _ = sumLens cur := pyJoin_nil_length cur

/-- The overlap loop keeps the pending total consistent, within the overlap
budget, and small enough for the next piece (or empty). -/
lemma shrinkOverlap_spec (lenNext : Nat) :
    ∀ (cur : List Str) (tot : Nat), tot = sumLens cur →
      (shrinkOverlap lenNext cur tot).2 = sumLens (shrinkOverlap lenNext cur tot).1 ∧
      (shrinkOverlap lenNext cur tot).2 ≤ chunk_overlap ∧
      ((shrinkOverlap lenNext cur tot).2 + lenNext ≤ chunk_size ∨
        (shrinkOverlap lenNext cur tot).2 = 0) := by
  intro cur
  induction cur with
  | nil =>
    intro tot ht
    simp only [sumLens, List.map_nil, List.sum_nil] at ht
    subst ht
    exact ⟨rfl, by show (0 : Nat) ≤ chunk_overlap; decide, Or.inr rfl⟩
  | cons c cs ih =>
    intro tot ht
    simp only [sumLens, List.map_cons, List.sum_cons] at ht
    unfold shrinkOverlap
    split
    · exact ih (tot - c.length) (by simp [sumLens]; omega)
    · next hcond =>
      refine ⟨by simpa [sumLens] using ht, ?_, ?_⟩
      · show tot ≤ chunk_overlap
        simp only [chunk_overlap, chunk_size] at hcond ⊢
        omega
      · show tot + lenNext ≤ chunk_size ∨ tot = 0
        simp only [chunk_overlap, chunk_size] at hcond ⊢
        omega

/-- The merge-loop invariant: the pending total is the length of the pending
pieces, it never exceeds the chunk size, and every emitted chunk is
within the chunk size. -/
def MergeInv (st : MergeState) : Prop :=
  st.total = sumLens st.current ∧ st.total ≤ chunk_size ∧
    ∀ c ∈ st.docs, c.length ≤ chunk_size

/-- One merge step preserves the invariant when the incoming piece is short. -/
lemma mergeStep_inv {st : MergeState} {d : Str} (hd : d.length < chunk_size)
    (h : MergeInv st) : MergeInv (mergeStep st d) := by
  obtain ⟨h1, h2, h3⟩ := h
  unfold mergeStep
  split
  · next hcond =>
    have hs := shrinkOverlap_spec d.length st.current st.total h1
    refine ⟨?_, ?_, ?_⟩
    · show (shrinkOverlap d.length st.current st.total).2 + d.length =
        sumLens ((shrinkOverlap d.length st.current st.total).1 ++ [d])
      simp only [sumLens, List.map_append, List.sum_append, List.map_cons, List.sum_cons,
        List.map_nil, List.sum_nil]
      simp only [sumLens] at hs
      omega
    · show (shrinkOverlap d.length st.current st.total).2 + d.length ≤ chunk_size
      rcases hs.2.2 with hle | h0
      · exact hle
      · omega
    · intro c hc
      rcases hj : joinDocs st.current with _ | doc
      · rw [hj] at hc
        exact h3 c hc
      · rw [hj] at hc
        rcases List.mem_append.mp hc with hmem | hmem
        · exact h3 c hmem
        · rw [List.mem_singleton.mp hmem]
          calc doc.length ≤ sumLens st.current := joinDocs_length_le hj
            _ = st.total := h1.symm
            _ ≤ chunk_size := h2
  · next hcond =>
    refine ⟨?_, ?_, h3⟩
    · show st.total + d.length = sumLens (st.current ++ [d])
      simp only [sumLens, List.map_append, List.sum_append, List.map_cons, List.sum_cons,
        List.map_nil, List.sum_nil]
      simp only [sumLens] at h1
      omega
    · show st.total + d.length ≤ chunk_size
      rcases not_and_or.mp hcond with hle | hcur
      · omega
      · have : st.current = [] := not_not.mp hcur
        rw [this] at h1
        simp only [sumLens, List.map_nil, List.sum_nil] at h1
        omega

/-- The fold of merge steps preserves the invariant. -/
lemma foldl_merge_inv : ∀ (splits : List Str) (st : MergeState), MergeInv st →
    (∀ d ∈ splits, d.length < chunk_size) → MergeInv (splits.foldl mergeStep st) := by
  intro splits
  induction splits with
  | nil => intro st h _; exact h
  | cons d rest ih =>
    intro st h hall
    exact ih _ (mergeStep_inv (hall d (by simp)) h)
      (fun x hx => hall x (List.mem_cons_of_mem _ hx))

/-- Merged chunks never exceed the chunk size when the merged pieces are
each shorter than it. -/
lemma mergeSplits_length_le {splits : List Str}
    (h : ∀ d ∈ splits, d.length < chunk_size) :
    ∀ c ∈ mergeSplits splits, c.length ≤ chunk_size := by
  intro c hc
  have hinv := foldl_merge_inv splits ⟨[], [], 0⟩
    ⟨rfl, by simp [chunk_size], by simp⟩ h
  obtain ⟨h1, h2, h3⟩ := hinv
  unfold mergeSplits at hc
  rcases hj : joinDocs (splits.foldl mergeStep ⟨[], [], 0⟩).current with _ | doc
  · rw [hj] at hc
    exact h3 c hc
  · rw [hj] at hc
    rcases List.mem_append.mp hc with hmem | hmem
    · exact h3 c hmem
    · rw [List.mem_singleton.mp hmem]
      calc doc.length ≤ sumLens (splits.foldl mergeStep ⟨[], [], 0⟩).current :=
            joinDocs_length_le hj
        _ ≤ chunk_size := by omega

/-- Character-level splitting produces only short pieces. -/
lemma splitTextWithSep_nil_short (text : Str) :
    ∀ s ∈ splitTextWithSep [] text, s.length < chunk_size := by
  intro s hs
  unfold splitTextWithSep at hs
  obtain ⟨hmem, _⟩ := List.mem_filter.mp hs
  obtain ⟨c, _, hc⟩ := List.mem_map.mp hmem
  rw [← hc]
  show (1 : Nat) < chunk_size
  decide

/-- If the separator scan failed, the empty separator was not in the list. -/
lemma chooseSep_none_no_empty : ∀ (text : Str) (seps : List Str),
    chooseSep text seps = none → [] ∉ seps := by
  intro text seps
  induction seps with
  | nil => intro _ h; cases h
  | cons s rest ih =>
    intro h hmem
    unfold chooseSep at h
    split at h
    · exact Option.noConfusion h
    · split at h
      · exact Option.noConfusion h
      · next hs _ =>
        rcases List.mem_cons.mp hmem with h1 | h1
        · exact hs h1.symm
        · exact ih h h1

/-- When the hierarchy ends with the empty separator, the scan either picks
the empty separator (leaving no finer hierarchy) or leaves a remaining
hierarchy that again ends with the empty separator. -/
lemma chooseSep_some_last : ∀ (text : Str) (seps : List Str) (pr : Str × List Str),
    seps.getLast? = some [] → chooseSep text seps = some pr →
    pr = ([], []) ∨ pr.2.getLast? = some [] := by
  intro text seps
  induction seps with
  | nil => intro pr _ h; exact Option.noConfusion h
  | cons s rest ih =>
    intro pr hlast h
    unfold chooseSep at h
    split at h
    · injection h with h2
      exact Or.inl h2.symm
    · split at h
      · next hs _ =>
        injection h with h2
        right
        rw [← h2]
        cases rest with
        | nil =>
          simp only [List.getLast?_singleton, Option.some.injEq] at hlast
          exact absurd hlast hs
        | cons r0 rs =>
          rw [List.getLast?_cons_cons] at hlast
          exact hlast
      · next hs _ =>
        cases rest with
        | nil => exact Option.noConfusion h
        | cons r0 rs =>
          rw [List.getLast?_cons_cons] at hlast
          exact ih pr hlast h

/-- The same for the scan including its fallback. -/
lemma chooseSepTop_cases (text : Str) (seps : List Str) (hlast : seps.getLast? = some []) :
    chooseSepTop text seps = ([], []) ∨ (chooseSepTop text seps).2.getLast? = some [] := by
  unfold chooseSepTop
  rcases hc : chooseSep text seps with _ | pr
  · left
    have : seps.getLastD [] = [] := by
      rw [List.getLastD_eq_getLast?, hlast]
      rfl
    rw [this]
  · exact chooseSep_some_last text seps pr hlast hc

/-- Out of fuel or out of separators, the splitter returns nothing. -/
lemma splitTextFuel_nil_seps : ∀ (fuel : Nat) (t : Str), splitTextFuel fuel t [] = [] := by
  intro fuel t
  cases fuel <;> rfl

/-- All chunks produced by the loop stay within the chunk size, given that
recursive splitting is bounded, that collected pieces are short, and that
raw appends cannot happen unless every piece is short. -/
lemma splitChunksLoopG_length_le (recurse : Str → List Str) (noFiner : Bool)
    (hrec : ∀ t c, c ∈ recurse t → c.length ≤ chunk_size) :
    ∀ (splits goods finals : List Str),
      (noFiner = true → ∀ s ∈ splits, s.length < chunk_size) →
      (∀ g ∈ goods, g.length < chunk_size) →
      (∀ c ∈ finals, c.length ≤ chunk_size) →
      ∀ c ∈ splitChunksLoopG recurse noFiner splits goods finals, c.length ≤ chunk_size := by
  intro splits
  induction splits with
  | nil =>
    intro goods finals _ hg hf c hc
    simp only [splitChunksLoopG] at hc
    split at hc
    · exact hf c hc
    · rcases List.mem_append.mp hc with h | h
      · exact hf c h
      · exact mergeSplits_length_le hg c h
  | cons s rest ih =>
    intro goods finals hraw hg hf c hc
    simp only [splitChunksLoopG] at hc
    split at hc
    · next hshort =>
      refine ih _ _ (fun hn s2 hs2 => hraw hn s2 (List.mem_cons_of_mem _ hs2)) ?_ hf c hc
      intro g hgm
      rcases List.mem_append.mp hgm with hmem | hmem
      · exact hg g hmem
      · rw [List.mem_singleton.mp hmem]
        exact hshort
    · next hlong =>
      have hf1 : ∀ x ∈ (if goods.isEmpty then finals else finals ++ mergeSplits goods),
          x.length ≤ chunk_size := by
        split
        · exact hf
        · intro x hx
          rcases List.mem_append.mp hx with hmem | hmem
          · exact hf x hmem
          · exact mergeSplits_length_le hg x hmem
      split at hc
      · next hnf =>
        exact absurd (hraw hnf s (List.mem_cons_self s rest)) hlong
      · refine ih _ _ (fun hn s2 hs2 => hraw hn s2 (List.mem_cons_of_mem _ hs2))
          (by simp) ?_ c hc
        intro x hx
        rcases List.mem_append.mp hx with hmem | hmem
        · exact hf1 x hmem
        · exact hrec s x hmem

/-- Every chunk the recursive splitter produces has length at most
`chunk_size`, for any hierarchy that ends with the empty separator. -/
lemma splitTextFuel_length_le : ∀ (fuel : Nat) (text : Str) (seps : List Str),
    seps.getLast? = some [] →
    ∀ c ∈ splitTextFuel fuel text seps, c.length ≤ chunk_size := by
  intro fuel
  induction fuel with
  | zero => intro text seps _ c hc; cases hc
  | succ fuel ih =>
    intro text seps hlast c hc
    cases seps with
    | nil => cases hc
    | cons s rest =>
      unfold splitTextFuel at hc
      rcases chooseSepTop_cases text (s :: rest) hlast with hcase | hcase
      · rw [hcase] at hc
        refine splitChunksLoopG_length_le _ _ ?_ _ _ _ ?_ (by simp) (by simp) c hc
        · intro t c2 hc2
          rw [splitTextFuel_nil_seps] at hc2
          cases hc2
        · intro _ s2 hs2
          exact splitTextWithSep_nil_short text s2 hs2
      · refine splitChunksLoopG_length_le _ _ ?_ _ _ _ ?_ (by simp) (by simp) c hc
        · intro t c2 hc2
          exact ih t _ hcase c2 hc2
        · intro hn
          exfalso
          rcases h2 : (chooseSepTop text (s :: rest)).2 with _ | ⟨x, xs⟩
          · rw [h2] at hcase
            exact Option.noConfusion hcase
          · rw [h2] at hn
            exact Bool.noConfusion hn

/-- All chunks of `splitText` are within the chunk size. -/
lemma splitText_length_le (text : Str) : ∀ c ∈ splitText text, c.length ≤ chunk_size :=
  splitTextFuel_length_le _ text defaultSeparators (by decide)

/-- A successful scan never returns an index below its starting point. -/
lemma pyFindGo_ge (sub : Str) : ∀ (t : Str) (i j : Nat), pyFindGo sub t i = some j → i ≤ j := by
  intro t
  induction t with
  | nil =>
    intro i j h
    unfold pyFindGo at h
    split at h
    · injection h with h
      omega
    · exact Option.noConfusion h
  | cons c r ih =>
    intro i j h
    unfold pyFindGo at h
    split at h
    · injection h with h
      omega
    · have := ih (i + 1) j h
      omega

/-- `find` never returns an index below its starting point. -/
lemma pyFind_ge {text sub : Str} {start j : Nat} (h : pyFind text sub start = some j) :
    start ≤ j :=
  pyFindGo_ge sub _ start j h

/-- When the next chunk is located, its offset is at least the previous
offset plus the previous length minus the overlap. -/
lemma nextIndex_ge (text c : Str) (index : Int) (prevLen : Nat)
    (h : nextIndex text c index prevLen ≠ -1) :
    index + (prevLen : Int) ≤ nextIndex text c index prevLen + (chunk_overlap : Int) := by
  unfold nextIndex at h ⊢
  rcases hf : pyFind text c
      (max 0 (index + (prevLen : Int) - (chunk_overlap : Int))).toNat with _ | j
  · rw [hf] at h
    simp at h
  · show index + (prevLen : Int) ≤ (j : Int) + (chunk_overlap : Int)
    have h1 : (max 0 (index + (prevLen : Int) - (chunk_overlap : Int))).toNat ≤ j :=
      pyFind_ge hf
    have h2 : ((max 0 (index + (prevLen : Int) - (chunk_overlap : Int))).toNat : Int) =
        max 0 (index + (prevLen : Int) - (chunk_overlap : Int)) :=
      Int.toNat_of_nonneg (le_max_left 0 _)
    have h3 : index + (prevLen : Int) - (chunk_overlap : Int) ≤
        max 0 (index + (prevLen : Int) - (chunk_overlap : Int)) := le_max_right 0 _
    have h4 : ((max 0 (index + (prevLen : Int) - (chunk_overlap : Int))).toNat : Int) ≤
        (j : Int) := by exact_mod_cast h1
    omega

/-- Unfolding equation for the offset bookkeeping. -/
lemma addStartIndexGo_cons (text c : Str) (rest : List Str) (index : Int) (prevLen : Nat) :
    addStartIndexGo text (c :: rest) index prevLen =
      ⟨c, nextIndex text c index prevLen⟩ ::
        addStartIndexGo text rest (nextIndex text c index prevLen) c.length := rfl

/-- Consecutive indexed chunks satisfy the overlap bound. -/
lemma addStartIndexGo_chain (text : Str) :
    ∀ (chunks : List Str) (index : Int) (prevLen : Nat),
      List.Chain' overlapRel (addStartIndexGo text chunks index prevLen) := by
  intro chunks
  induction chunks with
  | nil => intro i p; exact List.chain'_nil
  | cons c rest ih =>
    intro i p
    cases rest with
    | nil => exact List.chain'_singleton _
    | cons c2 rest2 =>
      rw [addStartIndexGo_cons, addStartIndexGo_cons, List.chain'_cons]
      constructor
      · intro hne
        exact nextIndex_ge text c2 (nextIndex text c i p) c.length hne
      · rw [← addStartIndexGo_cons]
        exact ih (nextIndex text c i p) c.length

/-- The text of every indexed chunk is one of the chunk texts. -/
lemma addStartIndexGo_text_mem (text : Str) :
    ∀ (chunks : List Str) (index : Int) (prevLen : Nat) (ic : IndexedChunk),
      ic ∈ addStartIndexGo text chunks index prevLen → ic.text ∈ chunks := by
  intro chunks
  induction chunks with
  | nil => intro i p ic h; cases h
  | cons c rest ih =>
    intro i p ic h
    rw [addStartIndexGo_cons] at h
    rcases List.mem_cons.mp h with h1 | h1
    · rw [h1]
      exact List.mem_cons_self _ _
    · exact List.mem_cons_of_mem _ (ih _ _ ic h1)

/-- Every chunk of `split_documents` comes from exactly one input document:
it inherits that document's source and its text is one of that document's
split chunks. -/
lemma split_documents_spec {docs : List LCDocument} {c : ChunkDoc}
    (hc : c ∈ split_documents docs) :
    ∃ d ∈ docs, c.source = d.source ∧ c.text ∈ splitText d.text := by
  unfold split_documents at hc
  obtain ⟨d, hd, hcd⟩ := List.mem_flatMap.mp hc
  obtain ⟨ic, hic, hmk⟩ := List.mem_map.mp hcd
  refine ⟨d, hd, ?_, ?_⟩
  · rw [← hmk]
  · rw [← hmk]
    exact addStartIndexGo_text_mem _ _ _ _ ic hic

/-- Claim C4 (amended): every chunk produced by the splitter has length at
most 1500 (including the last); every chunk belongs to exactly one input
document, whose source metadata it inherits; and consecutive chunks of
the same document overlap by at most 150 characters — the next located
offset is at least the previous offset plus the previous length minus
150.  (Exact-150 overlap and gap-free coverage do not hold; see the
counterexample.) -/
theorem splitter_guarantees (docs : List LCDocument) :
    (∀ c ∈ split_documents docs, c.text.length ≤ chunk_size ∧
      ∃ d ∈ docs, c.source = d.source ∧ c.text ∈ splitText d.text) ∧
    (∀ d ∈ docs, List.Chain' overlapRel (addStartIndex d.text (splitText d.text))) := by
  constructor
  · intro c hc
    obtain ⟨d, hd, hsrc, htext⟩ := split_documents_spec hc
    exact ⟨splitText_length_le d.text c.text htext, d, hd, hsrc, htext⟩
  · intro d _
    exact addStartIndexGo_chain d.text _ 0 0

/-- Witness for the amended C4 theorem at a small concrete document. -/
theorem splitter_guarantees_witness :
    (⟨strL ("hello world"), strL ("a.txt"), 0⟩ : ChunkDoc).text.length ≤ chunk_size ∧
    ∃ d ∈ [(⟨strL ("hello world"), strL ("a.txt")⟩ : LCDocument)],
      (⟨strL ("hello world"), strL ("a.txt"), 0⟩ : ChunkDoc).source = d.source ∧
      (⟨strL ("hello world"), strL ("a.txt"), 0⟩ : ChunkDoc).text ∈ splitText d.text :=
  (splitter_guarantees [⟨strL ("hello world"), strL ("a.txt")⟩]).1
    ⟨strL ("hello world"), strL ("a.txt"), 0⟩ (by decide)

/-- A 1502-character document whose two paragraphs cannot share a chunk. -/
def ceText : Str := List.replicate 1499 'a' ++ strL ("\n\nb")

set_option maxRecDepth 100000 in
/-- Claim C4 counterexample: on `ceText` the splitter emits two chunks, of
lengths 1499 and 1 at offsets 0 and 1501.  Their overlap is 0 rather than
exactly 150 (the second chunk would have to start at 0 + 1499 - 150 =
1349), and position 1499 of the 1502-character source is covered by
neither chunk, so the chunks do not cover the text. -/
theorem splitter_overlap_not_exact :
    (split_documents [⟨ceText, strL ("big.txt")⟩]).map ChunkDoc.startIndex = [0, 1501] ∧
    (split_documents [⟨ceText, strL ("big.txt")⟩]).map (fun c => c.text.length) = [1499, 1] ∧
    ¬ ((1501 : Int) = 0 + 1499 - 150) ∧
    ceText.length = 1502 ∧
    ¬ (((0 : Int) ≤ 1499 ∧ (1499 : Int) < 0 + 1499) ∨
       ((1501 : Int) ≤ 1499 ∧ (1499 : Int) < 1501 + 1)) := by
  refine ⟨by decide, by decide, by decide, by decide, by decide⟩

end DocuSense
